import Mathlib

/-!
Shallow embedding of the ray tracer in `src/main.rs` (a recursive Monte-Carlo
path tracer over spheres), with machine `f64` modelled by the real numbers.
The upper bound of a hit interval is modelled by `EReal`, because the
integrator passes `f64::INFINITY` there.  Randomness (`rand::random`, the
rejection samplers) is modelled by passing the drawn sample explicitly:
`RandSample` holds one draw of each kind, and the integrator consumes a tape
of such draws, one per bounce.
-/

namespace RT

noncomputable section

/-- `Vector3` of `src/main.rs`: three floats, used as point, direction or
linear RGB color. -/
structure Vector3 where
  x : ℝ
  y : ℝ
  z : ℝ

namespace Vector3

/-- Componentwise addition (`impl Add for Vector3`). -/
instance : Add Vector3 :=
  ⟨fun a b => ⟨a.x + b.x, a.y + b.y, a.z + b.z⟩⟩

/-- Componentwise subtraction (`impl Sub for Vector3`). -/
instance : Sub Vector3 :=
  ⟨fun a b => ⟨a.x - b.x, a.y - b.y, a.z - b.z⟩⟩

/-- Componentwise (Hadamard) product (`impl Mul for Vector3`). -/
instance : Mul Vector3 :=
  ⟨fun a b => ⟨a.x * b.x, a.y * b.y, a.z * b.z⟩⟩

/-- Scaling by a scalar on the right (`impl Mul<f64> for Vector3`). -/
instance : HMul Vector3 ℝ Vector3 :=
  ⟨fun a k => ⟨a.x * k, a.y * k, a.z * k⟩⟩

/-- Division by a scalar (`impl Div<f64> for Vector3`). -/
instance : HDiv Vector3 ℝ Vector3 :=
  ⟨fun a k => ⟨a.x / k, a.y / k, a.z / k⟩⟩

@[simp] lemma add_def (a b : Vector3) : a + b = ⟨a.x + b.x, a.y + b.y, a.z + b.z⟩ := rfl

@[simp] lemma sub_def (a b : Vector3) : a - b = ⟨a.x - b.x, a.y - b.y, a.z - b.z⟩ := rfl

@[simp] lemma mul_def (a b : Vector3) : a * b = ⟨a.x * b.x, a.y * b.y, a.z * b.z⟩ := rfl

@[simp] lemma smul_def (a : Vector3) (k : ℝ) : a * k = ⟨a.x * k, a.y * k, a.z * k⟩ := rfl

@[simp] lemma div_def (a : Vector3) (k : ℝ) : a / k = ⟨a.x / k, a.y / k, a.z / k⟩ := rfl

/-- `Vector3::length_squared`. -/
def length_squared (v : Vector3) : ℝ :=
  v.x * v.x + v.y * v.y + v.z * v.z

/-- `Vector3::length`. -/
def length (v : Vector3) : ℝ :=
  Real.sqrt v.length_squared

/-- `Vector3::dot`. -/
def dot (v w : Vector3) : ℝ :=
  v.x * w.x + v.y * w.y + v.z * w.z

/-- `Vector3::cross`. -/
def cross (v w : Vector3) : Vector3 :=
  ⟨v.y * w.z - v.z * w.y, v.z * w.x - v.x * w.z, v.x * w.y - v.y * w.x⟩

/-- `Vector3::normalize`: divide by the length (the caller must keep the
length nonzero; real division by zero yields the zero vector here, where the
floats would yield infinities). -/
def normalize (v : Vector3) : Vector3 :=
  v / v.length

/-- `Vector3::near_zero`: every component below `1e-8` in magnitude. -/
def near_zero (v : Vector3) : Prop :=
  |v.x| < 1e-8 ∧ |v.y| < 1e-8 ∧ |v.z| < 1e-8

/-- `Vector3::reflect`: mirror reflection about `n`. -/
def reflect (v n : Vector3) : Vector3 :=
  v - n * (v.dot n) * (2 : ℝ)

/-- `Vector3::refract`: Snell refraction decomposed into perpendicular and
parallel parts, exactly as the source computes it. -/
def refract (v n : Vector3) (etai_over_etat : ℝ) : Vector3 :=
  let cos_theta := min ((v * (-1 : ℝ)).dot n) 1
  let r_out_perp := (v + n * cos_theta) * etai_over_etat
  let r_out_par := n * Real.sqrt |1 - r_out_perp.length_squared| * (-1 : ℝ)
  r_out_perp + r_out_par

lemma length_squared_nonneg (v : Vector3) : 0 ≤ v.length_squared := by
  unfold length_squared
  nlinarith [mul_self_nonneg v.x, mul_self_nonneg v.y, mul_self_nonneg v.z]

end Vector3

/-- `Ray` of `src/main.rs`: origin plus direction, not necessarily unit. -/
structure Ray where
  origin : Vector3
  direction : Vector3

/-- `Ray::at`. -/
def Ray.at (r : Ray) (t : ℝ) : Vector3 :=
  r.origin + r.direction * t

/-- The `Material` enum: Lambertian, Metal and Dielectric variants. -/
inductive Material where
  | Lambertian (albedo : Vector3)
  | Metal (albedo : Vector3) (fuzz : ℝ)
  | Dielectric (ir : ℝ)

/-- The `Intersection` record: point, stored normal, material copy,
parametric distance and the front-face flag. -/
structure Intersection where
  p : Vector3
  normal : Vector3
  material : Material
  t : ℝ
  front_facing : Bool

/-- `Intersection::set_face_normal`: orient the stored normal against the
incoming ray. -/
def Intersection.set_face_normal (i : Intersection) (r : Ray) (outward_normal : Vector3) :
    Intersection :=
  if r.direction.dot outward_normal < 0 then
    { i with front_facing := true, normal := outward_normal }
  else
    { i with front_facing := false, normal := outward_normal * (-1 : ℝ) }

/-- The `Sphere` primitive. -/
structure Sphere where
  center : Vector3
  radius : ℝ
  material : Material

namespace Sphere

/-- The half-b coefficient `hb = (O − C)·D` of `Sphere::hit`. -/
def halfB (s : Sphere) (r : Ray) : ℝ :=
  (r.origin - s.center).dot r.direction

/-- The constant coefficient `c = |O − C|² − radius²` of `Sphere::hit`. -/
def cCoeff (s : Sphere) (r : Ray) : ℝ :=
  (r.origin - s.center).length_squared - s.radius * s.radius

/-- The reduced discriminant `hb² − a·c` of `Sphere::hit`. -/
def discriminant (s : Sphere) (r : Ray) : ℝ :=
  s.halfB r * s.halfB r - r.direction.length_squared * s.cCoeff r

/-- The smaller quadratic root `(−hb − √disc) / a` tried first by
`Sphere::hit`. -/
def root1 (s : Sphere) (r : Ray) : ℝ :=
  (-s.halfB r - Real.sqrt (s.discriminant r)) / r.direction.length_squared

/-- The larger quadratic root `(−hb + √disc) / a` tried second. -/
def root2 (s : Sphere) (r : Ray) : ℝ :=
  (-s.halfB r + Real.sqrt (s.discriminant r)) / r.direction.length_squared

/-- The intersection record `Sphere::hit` builds for an accepted root:
point, outward normal `(P − C) / radius`, then `set_face_normal`. -/
def mkIntersection (s : Sphere) (r : Ray) (root : ℝ) : Intersection :=
  let i : Intersection :=
    { p := r.at root
      normal := (r.at root - s.center) / s.radius
      material := s.material
      t := root
      front_facing := false }
  i.set_face_normal r ((r.at root - s.center) / s.radius)

/-- `Sphere::hit`: no hit for a negative discriminant; otherwise try the
smaller root, then the larger, each rejected when `root < t_min` or
`t_max < root`. -/
def hit (s : Sphere) (r : Ray) (t_min : ℝ) (t_max : EReal) : Option Intersection :=
  if s.discriminant r < 0 then none
  else if s.root1 r < t_min ∨ t_max < (s.root1 r : ℝ) then
    if s.root2 r < t_min ∨ t_max < (s.root2 r : ℝ) then none
    else some (s.mkIntersection r (s.root2 r))
  else some (s.mkIntersection r (s.root1 r))

end Sphere

/-- `HittableStore`: the scene aggregate, an ordered collection of
primitives. -/
structure HittableStore where
  objects : List Sphere

/-- One step of the fold in `HittableStore::hit`: test a primitive against
the current shrunken interval and keep the new intersection if any. -/
def HittableStore.hitFold (r : Ray) (t_min : ℝ)
    (acc : Option Intersection × EReal) (h : Sphere) : Option Intersection × EReal :=
  match Sphere.hit h r t_min acc.2 with
  | some ni => (some ni, (ni.t : ℝ))
  | none => acc

/-- `HittableStore::hit`: fold over the primitives, shrinking the upper
bound to the last accepted `t`. -/
def HittableStore.hit (w : HittableStore) (r : Ray) (t_min : ℝ) (t_max : EReal) :
    Option Intersection :=
  (w.objects.foldl (HittableStore.hitFold r t_min) (none, t_max)).1

/-- One draw of each random quantity a single scatter event may consume:
`Vector3::random_unit_vector`, `Vector3::random_in_unit_sphere` and
`random()`. -/
structure RandSample where
  unitVec : Vector3
  inSphere : Vector3
  uniform : ℝ

/-- `reflectance`: Schlick's approximation. -/
def reflectance (cosine ref_idx : ℝ) : ℝ :=
  let r0 := (1 - ref_idx) / (1 + ref_idx)
  let r0 := r0 * r0
  r0 + (1 - r0) * (1 - cosine) ^ (5 : ℕ)

open Classical in
/-- `Material::scatter` with the random draws passed explicitly. -/
def Material.scatter (m : Material) (rnd : RandSample) (r_in : Ray)
    (intersection : Intersection) : Option (Vector3 × Ray) :=
  match m with
  | Material.Lambertian albedo =>
      let scatter_direction := intersection.normal + rnd.unitVec
      let scatter_direction :=
        if scatter_direction.near_zero then intersection.normal else scatter_direction
      some (albedo, { origin := intersection.p, direction := scatter_direction })
  | Material.Metal albedo fuzz =>
      let reflected := (r_in.direction.normalize).reflect intersection.normal
      let scattered : Ray :=
        { origin := intersection.p, direction := reflected + rnd.inSphere * fuzz }
      if scattered.direction.dot intersection.normal > 0 then
        some (albedo, scattered)
      else
        none
  | Material.Dielectric ir =>
      let attenuation : Vector3 := ⟨1, 1, 1⟩
      let refraction_ratio := if intersection.front_facing then 1 / ir else ir
      let unit_direction := r_in.direction.normalize
      let cos_theta := min ((unit_direction * (-1 : ℝ)).dot intersection.normal) 1
      let sin_theta := Real.sqrt (1 - cos_theta * cos_theta)
      let cannot_refract := refraction_ratio * sin_theta > 1
      let direction :=
        if cannot_refract ∨ reflectance cos_theta refraction_ratio > rnd.uniform then
          unit_direction.reflect intersection.normal
        else
          unit_direction.refract intersection.normal refraction_ratio
      some (attenuation, { origin := intersection.p, direction := direction })

/-- `Ray::ray_color`: the recursive integrator, consuming one random draw
per bounce from the tape `rnd`. -/
def Ray.ray_color (r : Ray) (world : HittableStore) (depth : ℕ) (rnd : ℕ → RandSample) :
    Vector3 :=
  match depth with
  | 0 => ⟨0, 0, 0⟩
  | Nat.succ d =>
      match world.hit r 0.001 ⊤ with
      | some i =>
          match i.material.scatter (rnd 0) r i with
          | some (attenuation, scattered) =>
              attenuation * scattered.ray_color world d (fun n => rnd (n + 1))
          | none => ⟨0, 0, 0⟩
      | none =>
          let unit_direction := r.direction.normalize
          let t := (unit_direction.y + 1) * 0.5
          (⟨1, 1, 1⟩ : Vector3) * (1 - t) + (⟨0.5, 0.7, 1⟩ : Vector3) * t

/-- The saturating truncation a Rust `as u8` cast applies to a float. -/
def f64_as_u8 (v : ℝ) : ℤ :=
  max 0 (min 255 ⌊v⌋)

/-- Rust `f64::clamp`. -/
def f64_clamp (v lo hi : ℝ) : ℝ :=
  min (max v lo) hi

/-- `Vector3::write_color`: the three quantized channel values of the
emitted `R G B` line. -/
def write_color (c : Vector3) (samples_per_pixel : ℕ) : ℤ × ℤ × ℤ :=
  let scale : ℝ := 1 / (samples_per_pixel : ℝ)
  let r := Real.sqrt (c.x * scale)
  let g := Real.sqrt (c.y * scale)
  let b := Real.sqrt (c.z * scale)
  (f64_as_u8 (256 * f64_clamp r 0 0.999),
   f64_as_u8 (256 * f64_clamp g 0 0.999),
   f64_as_u8 (256 * f64_clamp b 0 0.999))

/-- The derived `Camera` state: origin, viewport corner and spans, basis
vectors and lens radius. -/
structure Camera where
  origin : Vector3
  lower_left : Vector3
  horizontal : Vector3
  vertical : Vector3
  u : Vector3
  v : Vector3
  w : Vector3
  lens_radius : ℝ

/-- `Camera::get_ray` with the unit-disk sample passed explicitly. -/
def Camera.get_ray (cam : Camera) (disk : Vector3) (s t : ℝ) : Ray :=
  let rd := disk * cam.lens_radius
  let offset := cam.u * rd.x + cam.v * rd.y
  { origin := cam.origin + offset
    direction := cam.lower_left + cam.horizontal * s + cam.vertical * t
      - cam.origin - offset }

/-! ## Concrete fixtures for witnesses and counterexamples -/

/-- A unit sphere centred at `(0,0,2)` (material irrelevant). -/
def sphereW : Sphere :=
  { center := ⟨0, 0, 2⟩, radius := 1, material := Material.Lambertian ⟨0, 0, 0⟩ }

/-- The ray from the origin towards positive `z`. -/
def rayW : Ray :=
  { origin := ⟨0, 0, 0⟩, direction := ⟨0, 0, 1⟩ }

/-- A front-facing intersection with unit normal `(0,0,1)` on a dielectric
of index 1. -/
def dielIntersection : Intersection :=
  { p := ⟨0, 0, 0⟩, normal := ⟨0, 0, 1⟩, material := Material.Dielectric 1, t := 1,
    front_facing := true }

/-- A unit-length incoming direction hitting `dielIntersection` obliquely. -/
def dielRay : Ray :=
  { origin := ⟨0, 0, 0⟩, direction := ⟨0, 4 / 5, -(3 / 5)⟩ }

/-- A random draw whose uniform component is `0`. -/
def dielRand : RandSample :=
  { unitVec := ⟨0, 0, 0⟩, inSphere := ⟨0, 0, 0⟩, uniform := 0 }

/-! ## Sphere intersection lemmas -/

namespace Sphere

lemma mkIntersection_t (s : Sphere) (r : Ray) (root : ℝ) :
    (s.mkIntersection r root).t = root := by
  unfold mkIntersection Intersection.set_face_normal
  split_ifs <;> rfl

lemma mkIntersection_p (s : Sphere) (r : Ray) (root : ℝ) :
    (s.mkIntersection r root).p = r.at root := by
  unfold mkIntersection Intersection.set_face_normal
  split_ifs <;> rfl

lemma mkIntersection_material (s : Sphere) (r : Ray) (root : ℝ) :
    (s.mkIntersection r root).material = s.material := by
  unfold mkIntersection Intersection.set_face_normal
  split_ifs <;> rfl

lemma mkIntersection_front (s : Sphere) (r : Ray) (root : ℝ) :
    (s.mkIntersection r root).front_facing = true ↔
      r.direction.dot ((r.at root - s.center) / s.radius) < 0 := by
  unfold mkIntersection Intersection.set_face_normal
  split_ifs with h
  · exact iff_of_true rfl h
  · exact iff_of_false (by simp) h

lemma mkIntersection_normal (s : Sphere) (r : Ray) (root : ℝ) :
    (s.mkIntersection r root).normal =
      if r.direction.dot ((r.at root - s.center) / s.radius) < 0 then
        (r.at root - s.center) / s.radius
      else ((r.at root - s.center) / s.radius) * (-1 : ℝ) := by
  unfold mkIntersection Intersection.set_face_normal
  split_ifs with h <;> rfl

lemma hit_some_cases (s : Sphere) (r : Ray) (t_min : ℝ) (t_max : EReal) (i : Intersection)
    (hi : s.hit r t_min t_max = some i) :
    0 ≤ s.discriminant r ∧
    ((i = s.mkIntersection r (s.root1 r) ∧ t_min ≤ s.root1 r ∧ (s.root1 r : EReal) ≤ t_max) ∨
      (i = s.mkIntersection r (s.root2 r) ∧ t_min ≤ s.root2 r ∧ (s.root2 r : EReal) ≤ t_max ∧
        (s.root1 r < t_min ∨ t_max < (s.root1 r : EReal)))) := by
  unfold hit at hi
  split_ifs at hi with h1 h2 h3
  · push_neg at h3
    exact ⟨not_lt.mp h1, Or.inr ⟨(Option.some.inj hi).symm, h3.1, h3.2, h2⟩⟩
  · push_neg at h2
    exact ⟨not_lt.mp h1, Or.inl ⟨(Option.some.inj hi).symm, h2.1, h2.2⟩⟩

lemma hit_none_cases (s : Sphere) (r : Ray) (t_min : ℝ) (t_max : EReal)
    (hn : s.hit r t_min t_max = none) :
    s.discriminant r < 0 ∨
    ((s.root1 r < t_min ∨ t_max < (s.root1 r : EReal)) ∧
      (s.root2 r < t_min ∨ t_max < (s.root2 r : EReal))) := by
  unfold hit at hn
  split_ifs at hn with h1 h2 h3
  · exact Or.inl h1
  · exact Or.inr ⟨h2, h3⟩

lemma root1_le_root2 (s : Sphere) (r : Ray) : s.root1 r ≤ s.root2 r := by
  unfold root1 root2
  rcases eq_or_lt_of_le (Vector3.length_squared_nonneg r.direction) with h | h
  · rw [← h]
    simp
  · exact (div_le_div_iff_of_pos_right h).mpr (by linarith [Real.sqrt_nonneg (s.discriminant r)])

lemma hit_of_root1 (s : Sphere) (r : Ray) (t_min : ℝ) (t_max : EReal)
    (h1 : ¬ s.discriminant r < 0)
    (h2 : ¬ (s.root1 r < t_min ∨ t_max < (s.root1 r : EReal))) :
    s.hit r t_min t_max = some (s.mkIntersection r (s.root1 r)) := by
  unfold hit
  rw [if_neg h1, if_neg h2]

lemma hit_of_root2 (s : Sphere) (r : Ray) (t_min : ℝ) (t_max : EReal)
    (h1 : ¬ s.discriminant r < 0)
    (h2 : s.root1 r < t_min ∨ t_max < (s.root1 r : EReal))
    (h3 : ¬ (s.root2 r < t_min ∨ t_max < (s.root2 r : EReal))) :
    s.hit r t_min t_max = some (s.mkIntersection r (s.root2 r)) := by
  unfold hit
  rw [if_neg h1, if_pos h2, if_neg h3]

lemma hit_mono (s : Sphere) (r : Ray) (t_min : ℝ) {b b' : EReal} (hbb : b ≤ b')
    {i : Intersection} (h : s.hit r t_min b = some i) : s.hit r t_min b' = some i := by
  obtain ⟨hd, hcase⟩ := hit_some_cases s r t_min b i h
  rcases hcase with ⟨rfl, hmin, hmax⟩ | ⟨rfl, hmin, hmax, hrej⟩
  · apply hit_of_root1 _ _ _ _ (not_lt.mpr hd)
    push_neg
    exact ⟨hmin, le_trans hmax hbb⟩
  · have hr12 : s.root1 r ≤ s.root2 r := root1_le_root2 s r
    have hrej' : s.root1 r < t_min ∨ b' < (s.root1 r : EReal) := by
      rcases hrej with hh | hh
      · exact Or.inl hh
      · exact absurd (EReal.coe_lt_coe_iff.mp (lt_of_le_of_lt hmax hh)) (not_lt.mpr hr12)
    apply hit_of_root2 _ _ _ _ (not_lt.mpr hd) hrej'
    push_neg
    exact ⟨hmin, le_trans hmax hbb⟩

lemma hit_none_lt (s : Sphere) (r : Ray) (t_min : ℝ) {b b' : EReal}
    (hn : s.hit r t_min b = none) {j : Intersection} (hj : s.hit r t_min b' = some j) :
    b < (j.t : EReal) := by
  obtain ⟨hd, hcase⟩ := hit_some_cases s r t_min b' j hj
  rcases hit_none_cases s r t_min b hn with h | ⟨hr1, hr2⟩
  · exact absurd h (not_lt.mpr hd)
  · rcases hcase with ⟨rfl, hmin, _⟩ | ⟨rfl, hmin, _, _⟩
    · rw [mkIntersection_t]
      rcases hr1 with hh | hh
      · exact absurd hh (not_lt.mpr hmin)
      · exact hh
    · rw [mkIntersection_t]
      rcases hr2 with hh | hh
      · exact absurd hh (not_lt.mpr hmin)
      · exact hh

lemma hit_t_bounds (s : Sphere) (r : Ray) (t_min : ℝ) (t_max : EReal) {i : Intersection}
    (hi : s.hit r t_min t_max = some i) : t_min ≤ i.t ∧ (i.t : EReal) ≤ t_max := by
  obtain ⟨_, hcase⟩ := hit_some_cases s r t_min t_max i hi
  rcases hcase with ⟨rfl, hmin, hmax⟩ | ⟨rfl, hmin, hmax, _⟩ <;>
    rw [mkIntersection_t] <;> exact ⟨hmin, hmax⟩

end Sphere

/-! ## Scene aggregate lemmas -/

/-- Invariant-carrying specification of the fold inside `HittableStore::hit`:
relative to the original interval `[t_min, t_max]`, the fold starting from
an accumulator `(cur, bound)` ends in `none` only if it started in `none`
and every scanned primitive misses, and ends in `some i` only if `i` is a
member's full-interval hit (or the starting value) of minimal `t`. -/
lemma hitFold_spec (r : Ray) (t_min : ℝ) (t_max : EReal) (l : List Sphere) :
    ∀ (cur : Option Intersection) (bound : EReal),
      (cur = none → bound = t_max) →
      (∀ i0, cur = some i0 → bound = (i0.t : EReal) ∧ (i0.t : EReal) ≤ t_max) →
      (((l.foldl (HittableStore.hitFold r t_min) (cur, bound)).1 = none →
          cur = none ∧ ∀ s ∈ l, s.hit r t_min t_max = none) ∧
        (∀ i, (l.foldl (HittableStore.hitFold r t_min) (cur, bound)).1 = some i →
          (cur = some i ∨ ∃ s ∈ l, s.hit r t_min t_max = some i) ∧
          (∀ s ∈ l, ∀ j, s.hit r t_min t_max = some j → i.t ≤ j.t) ∧
          (i.t : EReal) ≤ bound)) := by
  induction l with
  | nil =>
      intro cur bound h1 h2
      refine ⟨fun h => ⟨h, by simp⟩, fun i hi => ⟨Or.inl hi, by simp, ?_⟩⟩
      exact le_of_eq (h2 i hi).1.symm
  | cons hd tl ih =>
      intro cur bound h1 h2
      have hbtm : bound ≤ t_max := by
        cases cur with
        | none => exact le_of_eq (h1 rfl)
        | some i0 => exact (h2 i0 rfl).1 ▸ (h2 i0 rfl).2
      rw [List.foldl_cons]
      rcases hhd : Sphere.hit hd r t_min bound with _ | ni
      · have hstep : HittableStore.hitFold r t_min (cur, bound) hd = (cur, bound) := by
          unfold HittableStore.hitFold
          rw [hhd]
        rw [hstep]
        obtain ⟨ihnone, ihsome⟩ := ih cur bound h1 h2
        constructor
        · intro hnone
          obtain ⟨hcur, hall⟩ := ihnone hnone
          refine ⟨hcur, ?_⟩
          intro s hs
          rcases List.mem_cons.mp hs with rfl | hs'
          · rw [← h1 hcur]
            exact hhd
          · exact hall s hs'
        · intro i hi
          obtain ⟨hsrc, hmin, hbound⟩ := ihsome i hi
          refine ⟨?_, ?_, hbound⟩
          · rcases hsrc with he | ⟨s, hs, hfs⟩
            · exact Or.inl he
            · exact Or.inr ⟨s, List.mem_cons_of_mem _ hs, hfs⟩
          · intro s hs j hj
            rcases List.mem_cons.mp hs with rfl | hs'
            · have hlt : bound < (j.t : EReal) := Sphere.hit_none_lt s r t_min hhd hj
              have : (i.t : EReal) < (j.t : EReal) := lt_of_le_of_lt hbound hlt
              exact le_of_lt (EReal.coe_lt_coe_iff.mp this)
            · exact hmin s hs' j hj
      · have hstep : HittableStore.hitFold r t_min (cur, bound) hd = (some ni, (ni.t : EReal)) := by
          unfold HittableStore.hitFold
          rw [hhd]
        rw [hstep]
        have hb := Sphere.hit_t_bounds hd r t_min bound hhd
        have hfull : Sphere.hit hd r t_min t_max = some ni := Sphere.hit_mono hd r t_min hbtm hhd
        obtain ⟨ihnone, ihsome⟩ := ih (some ni) (ni.t : EReal)
          (fun h => Option.noConfusion h)
          (fun i0 hi0 => by cases hi0; exact ⟨rfl, le_trans hb.2 hbtm⟩)
        constructor
        · intro hnone
          obtain ⟨hcur, _⟩ := ihnone hnone
          exact Option.noConfusion hcur
        · intro i hi
          obtain ⟨hsrc, hmin, hbound⟩ := ihsome i hi
          refine ⟨?_, ?_, le_trans hbound hb.2⟩
          · rcases hsrc with he | ⟨s, hs, hfs⟩
            · cases Option.some.inj he
              exact Or.inr ⟨hd, List.mem_cons_self _ _, hfull⟩
            · exact Or.inr ⟨s, List.mem_cons_of_mem _ hs, hfs⟩
          · intro s hs j hj
            rcases List.mem_cons.mp hs with rfl | hs'
            · have hj' : ni = j := Option.some.inj (hfull ▸ hj)
              have : (i.t : EReal) ≤ (ni.t : EReal) := hbound
              exact hj' ▸ EReal.coe_le_coe_iff.mp this
            · exact hmin s hs' j hj

/-- C3: the scene aggregate's hit is the nearest-hit scan: it returns `none`
exactly when every member misses the interval, and any returned intersection
is a member's full-interval hit whose `t` is minimal among all member hits. -/
theorem scene_hit_nearest (w : HittableStore) (r : Ray) (t_min : ℝ) (t_max : EReal) :
    (w.hit r t_min t_max = none ↔ ∀ s ∈ w.objects, s.hit r t_min t_max = none) ∧
    (∀ i, w.hit r t_min t_max = some i →
      (∃ s ∈ w.objects, s.hit r t_min t_max = some i) ∧
      ∀ s ∈ w.objects, ∀ j, s.hit r t_min t_max = some j → i.t ≤ j.t) := by
  have h := hitFold_spec r t_min t_max w.objects none t_max (fun _ => rfl)
    (fun i0 hi0 => Option.noConfusion hi0)
  unfold HittableStore.hit
  constructor
  · constructor
    · intro hn
      exact (h.1 hn).2
    · intro hall
      rcases hres : (w.objects.foldl (HittableStore.hitFold r t_min) (none, t_max)).1 with _ | i
      · rfl
      · obtain ⟨hsrc, _, _⟩ := h.2 i hres
        rcases hsrc with he | ⟨s, hs, hfs⟩
        · exact Option.noConfusion he
        · rw [hall s hs] at hfs
          exact Option.noConfusion hfs
  · intro i hi
    obtain ⟨hsrc, hmin, _⟩ := h.2 i hi
    rcases hsrc with he | hex
    · exact Option.noConfusion he
    · exact ⟨hex, hmin⟩

/-! ## Basic lemmas -/

lemma Vector3.eq_mk (a b c d e f : ℝ) :
    (⟨a, b, c⟩ : Vector3) = ⟨d, e, f⟩ ↔ a = d ∧ b = e ∧ c = f :=
  Vector3.mk.injEq a b c d e f ▸ Iff.rfl

/-- C2: `ray_color` with depth 0 is black, whatever the scene, ray and
randomness. -/
theorem ray_color_depth_zero (r : Ray) (world : HittableStore) (rnd : ℕ → RandSample) :
    Ray.ray_color r world 0 rnd = ⟨0, 0, 0⟩ :=
  rfl

/-- C10: the point a camera ray reaches at parameter 1 is
`lower_left + s·horizontal + t·vertical`, independent of the lens-disk
sample: the lens offset only moves the origin. -/
theorem camera_get_ray_focal_target (cam : Camera) (disk : Vector3) (s t : ℝ) :
    (cam.get_ray disk s t).at 1 = cam.lower_left + cam.horizontal * s + cam.vertical * t ∧
    (cam.get_ray disk s t).origin + (cam.get_ray disk s t).direction =
      cam.lower_left + cam.horizontal * s + cam.vertical * t := by
  constructor <;>
  · simp only [Camera.get_ray, Ray.at, Vector3.add_def, Vector3.sub_def, Vector3.smul_def,
      Vector3.mul_def]
    rw [Vector3.mk.injEq]
    refine ⟨by ring, by ring, by ring⟩

/-- C1: when the scene hit test over `[0.001, ∞)` finds nothing, `ray_color`
at positive depth is the background gradient
`(1−t)·(1,1,1) + t·(0.5,0.7,1)` with `t = (normalized direction's y + 1)/2`,
and that value is never black. -/
theorem ray_color_miss_background (r : Ray) (world : HittableStore) (depth : ℕ)
    (rnd : ℕ → RandSample) (hdepth : 0 < depth)
    (hmiss : world.hit r 0.001 ⊤ = none) :
    Ray.ray_color r world depth rnd =
      (⟨1, 1, 1⟩ : Vector3) * (1 - (r.direction.normalize.y + 1) / 2)
        + (⟨0.5, 0.7, 1⟩ : Vector3) * ((r.direction.normalize.y + 1) / 2) ∧
    Ray.ray_color r world depth rnd ≠ (⟨0, 0, 0⟩ : Vector3) := by
  obtain ⟨d, rfl⟩ : ∃ d, depth = d + 1 :=
    ⟨depth - 1, (Nat.succ_pred_eq_of_pos hdepth).symm⟩
  have hmain : Ray.ray_color r world (d + 1) rnd =
      (⟨1, 1, 1⟩ : Vector3) * (1 - (r.direction.normalize.y + 1) / 2)
        + (⟨0.5, 0.7, 1⟩ : Vector3) * ((r.direction.normalize.y + 1) / 2) := by
    rw [Ray.ray_color, hmiss]
    simp only [Vector3.smul_def, Vector3.add_def]
    rw [Vector3.mk.injEq]
    refine ⟨by ring, by ring, by ring⟩
  refine ⟨hmain, ?_⟩
  rw [hmain]
  intro hblack
  have hz := (Vector3.mk.injEq _ _ _ _ _ _ ▸ hblack).2.2
  simp only [Vector3.smul_def, Vector3.add_def] at hz
  norm_num at hz

/-- Witness for C1: an empty scene and the ray towards `(0,0,1)` yield the
gradient value `(3/4, 17/20, 1)`. -/
theorem ray_color_miss_background_witness :
    Ray.ray_color ⟨⟨0, 0, 0⟩, ⟨0, 0, 1⟩⟩ ⟨[]⟩ 1 (fun _ => ⟨⟨0, 0, 0⟩, ⟨0, 0, 0⟩, 0⟩) =
      ⟨3 / 4, 17 / 20, 1⟩ ∧
    Ray.ray_color ⟨⟨0, 0, 0⟩, ⟨0, 0, 1⟩⟩ ⟨[]⟩ 1 (fun _ => ⟨⟨0, 0, 0⟩, ⟨0, 0, 0⟩, 0⟩) ≠
      (⟨0, 0, 0⟩ : Vector3) := by
  have h := ray_color_miss_background ⟨⟨0, 0, 0⟩, ⟨0, 0, 1⟩⟩ ⟨[]⟩ 1
    (fun _ => ⟨⟨0, 0, 0⟩, ⟨0, 0, 0⟩, 0⟩) (by norm_num) rfl
  have hn : (Ray.mk ⟨0, 0, 0⟩ ⟨0, 0, 1⟩).direction.normalize = (⟨0, 0, 1⟩ : Vector3) := by
    simp only [Vector3.normalize, Vector3.length, Vector3.length_squared, Vector3.div_def]
    rw [Vector3.mk.injEq]
    norm_num
  refine ⟨?_, h.2⟩
  rw [h.1, hn]
  simp only [Vector3.smul_def, Vector3.add_def]
  rw [Vector3.mk.injEq]
  norm_num

/-- C6: `Metal::scatter` scatters exactly when the fuzz-perturbed mirror
reflection still points away from the surface (`dot` with the stored normal
positive); the scattered ray then carries the albedo as attenuation,
otherwise the ray is absorbed. -/
theorem metal_scatter_iff (albedo : Vector3) (fuzz : ℝ) (rnd : RandSample) (r_in : Ray)
    (i : Intersection) :
    (Material.scatter (Material.Metal albedo fuzz) rnd r_in i =
        some (albedo, ⟨i.p, r_in.direction.normalize.reflect i.normal + rnd.inSphere * fuzz⟩) ↔
      0 < (r_in.direction.normalize.reflect i.normal + rnd.inSphere * fuzz).dot i.normal) ∧
    (Material.scatter (Material.Metal albedo fuzz) rnd r_in i = none ↔
      ¬ 0 < (r_in.direction.normalize.reflect i.normal + rnd.inSphere * fuzz).dot i.normal) := by
  simp only [Material.scatter]
  split_ifs with h
  · refine ⟨⟨fun _ => h, fun _ => rfl⟩, ⟨fun hc => ?_, fun hc => absurd h hc⟩⟩
    simp at hc
  · refine ⟨⟨fun hc => ?_, fun hc => absurd hc h⟩, ⟨fun _ => h, fun _ => rfl⟩⟩
    simp at hc

/-- C7: `Dielectric::scatter` always scatters, with attenuation `(1,1,1)`
and an outgoing direction that is either the mirror reflection or the
refraction at ratio `1/ir` on a front face and `ir` on a back face. -/
theorem dielectric_scatter_total (ir : ℝ) (rnd : RandSample) (r_in : Ray) (i : Intersection) :
    ∃ d : Vector3,
      Material.scatter (Material.Dielectric ir) rnd r_in i = some (⟨1, 1, 1⟩, ⟨i.p, d⟩) ∧
      (d = r_in.direction.normalize.reflect i.normal ∨
        d = r_in.direction.normalize.refract i.normal (if i.front_facing then 1 / ir else ir)) := by
  simp only [Material.scatter]
  refine ⟨_, rfl, ?_⟩
  split_ifs <;> simp

/-! ## C4: root selection of `Sphere::hit` -/

/-- C4 (amended): with a non-negative discriminant, `Sphere::hit` evaluates
the smaller root first and accepts a root exactly when it lies in the
CLOSED interval `[t_min, t_max]` (the code rejects via
`root < t_min || t_max < root`, so `root = t_min` is accepted); if the
smaller root fails, the larger root is tried with the same test, and if
neither qualifies there is no hit. -/
theorem sphere_hit_root_selection (s : Sphere) (r : Ray) (t_min : ℝ) (t_max : EReal)
    (hd : 0 ≤ s.discriminant r) :
    (t_min ≤ s.root1 r ∧ (s.root1 r : EReal) ≤ t_max →
      s.hit r t_min t_max = some (s.mkIntersection r (s.root1 r))) ∧
    (¬ (t_min ≤ s.root1 r ∧ (s.root1 r : EReal) ≤ t_max) →
      (t_min ≤ s.root2 r ∧ (s.root2 r : EReal) ≤ t_max →
        s.hit r t_min t_max = some (s.mkIntersection r (s.root2 r))) ∧
      (¬ (t_min ≤ s.root2 r ∧ (s.root2 r : EReal) ≤ t_max) →
        s.hit r t_min t_max = none)) ∧
    s.root1 r ≤ s.root2 r := by
  have hrej : ∀ root : ℝ, ¬ (t_min ≤ root ∧ (root : EReal) ≤ t_max) →
      root < t_min ∨ t_max < (root : EReal) := by
    intro root hn
    rcases lt_or_le root t_min with h | h
    · exact Or.inl h
    rcases lt_or_le t_max ((root : ℝ) : EReal) with h' | h'
    · exact Or.inr h'
    · exact absurd ⟨h, h'⟩ hn
  refine ⟨?_, ?_, Sphere.root1_le_root2 s r⟩
  · intro h
    apply Sphere.hit_of_root1 _ _ _ _ (not_lt.mpr hd)
    push_neg
    exact h
  · intro hn1
    have h2 := hrej _ hn1
    constructor
    · intro h
      apply Sphere.hit_of_root2 _ _ _ _ (not_lt.mpr hd) h2
      push_neg
      exact h
    · intro hn2
      have h3 := hrej _ hn2
      unfold Sphere.hit
      rw [if_neg (not_lt.mpr hd), if_pos h2, if_pos h3]

/-- The concrete geometry of the fixture: the quadratic data of `sphereW`
against `rayW`. -/
lemma sphereW_data :
    Sphere.discriminant sphereW rayW = 1 ∧
    Sphere.root1 sphereW rayW = 1 ∧
    Sphere.root2 sphereW rayW = 3 := by
  have hls : rayW.direction.length_squared = 1 := by
    simp [rayW, Vector3.length_squared]
  have hhb : Sphere.halfB sphereW rayW = -2 := by
    simp [Sphere.halfB, sphereW, rayW, Vector3.dot]
  have hcc : Sphere.cCoeff sphereW rayW = 3 := by
    simp [Sphere.cCoeff, sphereW, rayW, Vector3.length_squared]
    norm_num
  have hdisc : Sphere.discriminant sphereW rayW = 1 := by
    unfold Sphere.discriminant
    rw [hhb, hcc, hls]
    norm_num
  refine ⟨hdisc, ?_, ?_⟩
  · unfold Sphere.root1
    rw [hdisc, hhb, hls, Real.sqrt_one]
    norm_num
  · unfold Sphere.root2
    rw [hdisc, hhb, hls, Real.sqrt_one]
    norm_num

/-- Evaluation of `Sphere::hit` on the fixture with `t_min = 1`: the
smaller root equals `t_min` and is returned. -/
lemma sphereW_hit_eval :
    Sphere.hit sphereW rayW 1 ((10 : ℝ) : EReal) =
      some (Sphere.mkIntersection sphereW rayW (Sphere.root1 sphereW rayW)) := by
  obtain ⟨hdisc, hr1, _⟩ := sphereW_data
  apply Sphere.hit_of_root1
  · rw [hdisc]
    norm_num
  · rw [hr1]
    push_neg
    constructor
    · norm_num
    · exact EReal.coe_le_coe_iff.mpr (by norm_num)

/-- Counterexample to C4 as frozen: for `sphereW` and `rayW` the smaller
root is exactly `t_min = 1`, yet `Sphere::hit` ACCEPTS it (the claimed
open-ended interval `(t_min, t_max]` would reject it and return the larger
root `3`). -/
theorem sphere_hit_accepts_t_min_boundary :
    Sphere.root1 sphereW rayW = 1 ∧
    Sphere.root2 sphereW rayW = 3 ∧
    ∃ i, Sphere.hit sphereW rayW 1 ((10 : ℝ) : EReal) = some i ∧ i.t = 1 := by
  obtain ⟨hdisc, hr1, hr2⟩ := sphereW_data
  refine ⟨hr1, hr2, Sphere.mkIntersection sphereW rayW (Sphere.root1 sphereW rayW),
    sphereW_hit_eval, ?_⟩
  rw [Sphere.mkIntersection_t, hr1]

/-! ## C5: orientation and unit length of the stored normal -/

lemma Vector3.dot_smul_right (v w : Vector3) (k : ℝ) : v.dot (w * k) = v.dot w * k := by
  unfold Vector3.dot
  simp only [Vector3.smul_def]
  ring

lemma Vector3.neg_one_smul_length_squared (v : Vector3) :
    (v * (-1 : ℝ)).length_squared = v.length_squared := by
  unfold Vector3.length_squared
  simp only [Vector3.smul_def]
  ring

lemma Vector3.div_length_squared_one (v : Vector3) (k : ℝ) (hk : k ≠ 0)
    (h : v.length_squared = k * k) : (v / k).length_squared = 1 := by
  unfold Vector3.length_squared at h ⊢
  simp only [Vector3.div_def]
  field_simp
  linarith

/-- An accepted root of `Sphere::hit` solves the quadratic
`a·t² + 2·hb·t + c = 0`. -/
lemma Sphere.root_quadratic (s : Sphere) (r : Ray) (hd : 0 ≤ s.discriminant r)
    (ha : r.direction.length_squared ≠ 0) (root : ℝ)
    (hroot : root = s.root1 r ∨ root = s.root2 r) :
    r.direction.length_squared * (root * root) + 2 * s.halfB r * root + s.cCoeff r = 0 := by
  have hsd : Real.sqrt (s.discriminant r) * Real.sqrt (s.discriminant r) = s.discriminant r :=
    Real.mul_self_sqrt hd
  have hdisc : s.discriminant r =
      s.halfB r * s.halfB r - r.direction.length_squared * s.cCoeff r := rfl
  rw [hdisc] at hsd
  rcases hroot with rfl | rfl
  · unfold Sphere.root1
    rw [hdisc]
    field_simp
    linear_combination (r.direction.length_squared ^ 2) * hsd
  · unfold Sphere.root2
    rw [hdisc]
    field_simp
    linear_combination (r.direction.length_squared ^ 2) * hsd

/-- The point `Sphere::hit` reports lies exactly on the sphere. -/
lemma Sphere.hit_point_on_sphere (s : Sphere) (r : Ray) (hd : 0 ≤ s.discriminant r)
    (ha : r.direction.length_squared ≠ 0) (root : ℝ)
    (hroot : root = s.root1 r ∨ root = s.root2 r) :
    (r.at root - s.center).length_squared = s.radius * s.radius := by
  have hq := Sphere.root_quadratic s r hd ha root hroot
  have hexp : (r.at root - s.center).length_squared =
      r.direction.length_squared * (root * root) + 2 * s.halfB r * root +
        (r.origin - s.center).length_squared := by
    unfold Ray.at Vector3.length_squared Sphere.halfB Vector3.dot
    simp only [Vector3.add_def, Vector3.sub_def, Vector3.smul_def]
    ring
  have hcc : s.cCoeff r = (r.origin - s.center).length_squared - s.radius * s.radius := rfl
  rw [hcc] at hq
  rw [hexp]
  linarith

/-- The facing/orientation facts for the record built on an accepted root. -/
lemma Sphere.mkIntersection_facing_spec (s : Sphere) (r : Ray) (root : ℝ)
    (hd : 0 ≤ s.discriminant r) (hroot : root = s.root1 r ∨ root = s.root2 r) :
    ((s.mkIntersection r root).front_facing = true ↔
      r.direction.dot (((s.mkIntersection r root).p - s.center) / s.radius) < 0) ∧
    (s.mkIntersection r root).normal =
      (if (s.mkIntersection r root).front_facing = true then
        ((s.mkIntersection r root).p - s.center) / s.radius
      else (((s.mkIntersection r root).p - s.center) / s.radius) * (-1 : ℝ)) ∧
    r.direction.dot (s.mkIntersection r root).normal ≤ 0 ∧
    (r.direction.length_squared ≠ 0 → s.radius ≠ 0 →
      (s.mkIntersection r root).normal.length = 1) := by
  rw [Sphere.mkIntersection_p]
  refine ⟨Sphere.mkIntersection_front s r root, ?_, ?_, ?_⟩
  · rw [Sphere.mkIntersection_normal]
    by_cases hdot : r.direction.dot ((r.at root - s.center) / s.radius) < 0
    · rw [if_pos hdot, if_pos ((Sphere.mkIntersection_front s r root).mpr hdot)]
    · rw [if_neg hdot, if_neg (fun h => hdot ((Sphere.mkIntersection_front s r root).mp h))]
  · rw [Sphere.mkIntersection_normal]
    by_cases hdot : r.direction.dot ((r.at root - s.center) / s.radius) < 0
    · rw [if_pos hdot]
      exact le_of_lt hdot
    · rw [if_neg hdot, Vector3.dot_smul_right]
      have hge := not_lt.mp hdot
      linarith
  · intro ha hr
    have hone : ((r.at root - s.center) / s.radius).length_squared = 1 :=
      Vector3.div_length_squared_one _ _ hr (Sphere.hit_point_on_sphere s r hd ha root hroot)
    rw [Sphere.mkIntersection_normal]
    by_cases hdot : r.direction.dot ((r.at root - s.center) / s.radius) < 0
    · rw [if_pos hdot]
      unfold Vector3.length
      rw [hone, Real.sqrt_one]
    · rw [if_neg hdot]
      unfold Vector3.length
      rw [Vector3.neg_one_smul_length_squared, hone, Real.sqrt_one]

/-- C5: every intersection `Sphere::hit` produces has `front_facing` true
exactly when the incoming direction opposes the outward normal
`(P − C)/radius`; the stored normal is the outward normal when front-facing
and its negation otherwise; its dot with the ray direction is never
positive; and (for a nondegenerate direction and radius) it is unit
length. -/
theorem sphere_hit_normal_spec (s : Sphere) (r : Ray) (t_min : ℝ) (t_max : EReal)
    (i : Intersection) (hi : s.hit r t_min t_max = some i) :
    (i.front_facing = true ↔ r.direction.dot ((i.p - s.center) / s.radius) < 0) ∧
    i.normal = (if i.front_facing = true then (i.p - s.center) / s.radius
      else ((i.p - s.center) / s.radius) * (-1 : ℝ)) ∧
    r.direction.dot i.normal ≤ 0 ∧
    (r.direction.length_squared ≠ 0 → s.radius ≠ 0 → i.normal.length = 1) := by
  obtain ⟨hd, hcase⟩ := Sphere.hit_some_cases s r t_min t_max i hi
  rcases hcase with ⟨rfl, _, _⟩ | ⟨rfl, _, _, _⟩
  · exact Sphere.mkIntersection_facing_spec s r _ hd (Or.inl rfl)
  · exact Sphere.mkIntersection_facing_spec s r _ hd (Or.inr rfl)

/-- Witness for C5: the fixture hit at `t = 1` is front-facing with unit
normal `(0,0,-1)`. -/
theorem sphere_hit_normal_spec_witness :
    ∃ i, Sphere.hit sphereW rayW 1 ((10 : ℝ) : EReal) = some i ∧
      (i.front_facing = true ↔ rayW.direction.dot ((i.p - sphereW.center) / sphereW.radius) < 0) ∧
      rayW.direction.dot i.normal ≤ 0 ∧
      i.normal.length = 1 := by
  have hi := sphereW_hit_eval
  have h := sphere_hit_normal_spec sphereW rayW 1 ((10 : ℝ) : EReal) _ hi
  refine ⟨_, hi, h.1, h.2.2.1, ?_⟩
  apply h.2.2.2
  · simp [rayW, Vector3.length_squared]
  · simp [sphereW]

/-! ## C8: gamma-corrected quantization of `write_color` -/

/-- For a value already clamped to `[0, 0.999]`, the saturating `as u8`
cast is plain floor, and the result lies in `0..255`. -/
lemma f64_as_u8_of_clamped (v : ℝ) :
    f64_as_u8 (256 * f64_clamp v 0 0.999) = ⌊(256 : ℝ) * f64_clamp v 0 0.999⌋ ∧
    0 ≤ ⌊(256 : ℝ) * f64_clamp v 0 0.999⌋ ∧ ⌊(256 : ℝ) * f64_clamp v 0 0.999⌋ ≤ 255 := by
  have h0 : 0 ≤ f64_clamp v 0 0.999 := le_min (le_max_right v 0) (by norm_num)
  have h1 : f64_clamp v 0 0.999 ≤ 0.999 := min_le_right _ _
  have hlow : (0 : ℤ) ≤ ⌊(256 : ℝ) * f64_clamp v 0 0.999⌋ :=
    Int.floor_nonneg.mpr (by nlinarith)
  have hhigh : ⌊(256 : ℝ) * f64_clamp v 0 0.999⌋ ≤ 255 := by
    apply Int.floor_le_iff.mpr
    push_cast
    nlinarith
  unfold f64_as_u8
  rw [min_eq_right (by exact_mod_cast hhigh), max_eq_right hlow]
  exact ⟨rfl, hlow, hhigh⟩

/-- C8: each channel `write_color` emits equals
`floor(256 · clamp(sqrt(channel / samples_per_pixel), 0, 0.999))`, an
integer in `0..255`. -/
theorem write_color_channels (c : Vector3) (spp : ℕ) (hspp : 0 < spp) :
    write_color c spp =
      (⌊(256 : ℝ) * f64_clamp (Real.sqrt (c.x / (spp : ℝ))) 0 0.999⌋,
        ⌊(256 : ℝ) * f64_clamp (Real.sqrt (c.y / (spp : ℝ))) 0 0.999⌋,
        ⌊(256 : ℝ) * f64_clamp (Real.sqrt (c.z / (spp : ℝ))) 0 0.999⌋) ∧
    (0 ≤ (write_color c spp).1 ∧ (write_color c spp).1 ≤ 255) ∧
    (0 ≤ (write_color c spp).2.1 ∧ (write_color c spp).2.1 ≤ 255) ∧
    (0 ≤ (write_color c spp).2.2 ∧ (write_color c spp).2.2 ≤ 255) := by
  have hdiv : ∀ u : ℝ, u * (1 / (spp : ℝ)) = u / (spp : ℝ) := fun u => by ring
  have hx := f64_as_u8_of_clamped (Real.sqrt (c.x / (spp : ℝ)))
  have hy := f64_as_u8_of_clamped (Real.sqrt (c.y / (spp : ℝ)))
  have hz := f64_as_u8_of_clamped (Real.sqrt (c.z / (spp : ℝ)))
  have hw : write_color c spp =
      (⌊(256 : ℝ) * f64_clamp (Real.sqrt (c.x / (spp : ℝ))) 0 0.999⌋,
        ⌊(256 : ℝ) * f64_clamp (Real.sqrt (c.y / (spp : ℝ))) 0 0.999⌋,
        ⌊(256 : ℝ) * f64_clamp (Real.sqrt (c.z / (spp : ℝ))) 0 0.999⌋) := by
    simp only [write_color]
    rw [hdiv, hdiv, hdiv, hx.1, hy.1, hz.1]
  refine ⟨hw, ?_, ?_, ?_⟩ <;> rw [hw]
  · exact ⟨hx.2.1, hx.2.2⟩
  · exact ⟨hy.2.1, hy.2.2⟩
  · exact ⟨hz.2.1, hz.2.2⟩

/-- Witness for C8: the accumulated color `(0, 1/4, 4)` at one sample per
pixel quantizes to `(0, 128, 255)`. -/
theorem write_color_channels_witness :
    write_color ⟨0, 1 / 4, 4⟩ 1 = (0, 128, 255) := by
  have h := write_color_channels ⟨0, 1 / 4, 4⟩ 1 (by norm_num)
  rw [h.1]
  have s0 : Real.sqrt ((0 : ℝ) / (1 : ℕ)) = 0 := by
    norm_num
  have s1 : Real.sqrt ((1 / 4 : ℝ) / (1 : ℕ)) = 1 / 2 := by
    rw [show ((1 / 4 : ℝ) / (1 : ℕ)) = (1 / 2 : ℝ) ^ 2 by push_cast; ring]
    exact Real.sqrt_sq (by norm_num)
  have s2 : Real.sqrt ((4 : ℝ) / (1 : ℕ)) = 2 := by
    rw [show ((4 : ℝ) / (1 : ℕ)) = (2 : ℝ) ^ 2 by push_cast; ring]
    exact Real.sqrt_sq (by norm_num)
  simp only [s0, s1, s2]
  unfold f64_clamp
  rw [Prod.mk.injEq, Prod.mk.injEq]
  refine ⟨?_, ?_, ?_⟩
  · rw [show max (0 : ℝ) 0 = 0 by norm_num, show min (0 : ℝ) 0.999 = 0 by norm_num]
    norm_num
  · rw [show max (1 / 2 : ℝ) 0 = 1 / 2 by norm_num, show min (1 / 2 : ℝ) 0.999 = 1 / 2 by norm_num]
    norm_num
  · rw [show max (2 : ℝ) 0 = 2 by norm_num, show min (2 : ℝ) 0.999 = 0.999 by norm_num]
    norm_num

/-! ## C9: dielectric with index of refraction 1 -/

lemma Vector3.dot_smul_left (v w : Vector3) (k : ℝ) : (v * k).dot w = v.dot w * k := by
  unfold Vector3.dot
  simp only [Vector3.smul_def]
  ring

lemma Vector3.neg_one_le_dot (v n : Vector3) (hv : v.length_squared = 1)
    (hn : n.length_squared = 1) : -1 ≤ v.dot n := by
  have hv' : v.x * v.x + v.y * v.y + v.z * v.z = 1 := hv
  have hn' : n.x * n.x + n.y * n.y + n.z * n.z = 1 := hn
  show -1 ≤ v.x * n.x + v.y * n.y + v.z * n.z
  nlinarith [sq_nonneg (v.x + n.x), sq_nonneg (v.y + n.y), sq_nonneg (v.z + n.z)]

lemma Vector3.normalize_of_unit (v : Vector3) (h : v.length_squared = 1) :
    v.normalize = v := by
  unfold Vector3.normalize Vector3.length
  rw [h, Real.sqrt_one]
  rcases v with ⟨a, b, c⟩
  simp only [Vector3.div_def]
  rw [Vector3.mk.injEq]
  norm_num

/-- Refraction at ratio 1 of a unit direction against a unit, opposing
normal is the identity: Snell's law does not bend the ray. -/
lemma Vector3.refract_ratio_one (v n : Vector3) (hv : v.length_squared = 1)
    (hn : n.length_squared = 1) (hopp : v.dot n ≤ 0) :
    v.refract n 1 = v := by
  have hmin : min ((v * (-1 : ℝ)).dot n) 1 = v.dot n * (-1) := by
    rw [Vector3.dot_smul_left]
    exact min_eq_left (by linarith [Vector3.neg_one_le_dot v n hv hn])
  unfold Vector3.refract
  dsimp only
  rw [hmin]
  have hls : ((v + n * (v.dot n * (-1 : ℝ))) * (1 : ℝ)).length_squared = 1 - v.dot n ^ 2 := by
    unfold Vector3.length_squared at hv hn ⊢
    unfold Vector3.dot
    simp only [Vector3.add_def, Vector3.smul_def]
    linear_combination hv + (v.x * n.x + v.y * n.y + v.z * n.z) ^ 2 * hn
  rw [hls]
  rw [show |1 - (1 - v.dot n ^ 2)| = v.dot n ^ 2 by
    rw [show (1 : ℝ) - (1 - v.dot n ^ 2) = v.dot n ^ 2 by ring]
    exact abs_of_nonneg (sq_nonneg _)]
  rw [show Real.sqrt (v.dot n ^ 2) = v.dot n * (-1) by
    rw [show v.dot n ^ 2 = (v.dot n * (-1)) ^ 2 by ring]
    exact Real.sqrt_sq (by linarith)]
  rcases v with ⟨a, b, c⟩
  rcases n with ⟨x, y, z⟩
  simp only [Vector3.add_def, Vector3.smul_def, Vector3.dot]
  rw [Vector3.mk.injEq]
  refine ⟨by ring, by ring, by ring⟩

/-- C9 (amended): for a dielectric of index 1, a unit incoming direction and
a front-facing intersection with unit, opposing normal, WHEN the reflectance
roulette does not select reflection, the scattered direction equals the
incoming direction (total internal reflection can never trigger since the
ratio is 1). -/
theorem dielectric_ior_one_refract_identity (rnd : RandSample) (r_in : Ray) (i : Intersection)
    (hff : i.front_facing = true)
    (hn : i.normal.length_squared = 1)
    (hd : r_in.direction.length_squared = 1)
    (hopp : r_in.direction.dot i.normal ≤ 0)
    (hroulette : ¬ reflectance (min ((r_in.direction * (-1 : ℝ)).dot i.normal) 1) 1 >
      rnd.uniform) :
    Material.scatter (Material.Dielectric 1) rnd r_in i =
      some (⟨1, 1, 1⟩, ⟨i.p, r_in.direction⟩) := by
  have hnorm : r_in.direction.normalize = r_in.direction := Vector3.normalize_of_unit _ hd
  have hcos : min ((r_in.direction * (-1 : ℝ)).dot i.normal) 1 = r_in.direction.dot i.normal * (-1) := by
    rw [Vector3.dot_smul_left]
    exact min_eq_left (by linarith [Vector3.neg_one_le_dot r_in.direction i.normal hd hn])
  have hm2 : 0 ≤ (min ((r_in.direction * (-1 : ℝ)).dot i.normal) 1) *
      (min ((r_in.direction * (-1 : ℝ)).dot i.normal) 1) := mul_self_nonneg _
  have hsin : Real.sqrt (1 - (min ((r_in.direction * (-1 : ℝ)).dot i.normal) 1) *
      (min ((r_in.direction * (-1 : ℝ)).dot i.normal) 1)) ≤ 1 :=
    le_trans (Real.sqrt_le_sqrt (by linarith)) (le_of_eq Real.sqrt_one)
  simp only [Material.scatter, hnorm, hff, eq_self_iff_true, if_true, one_div_one, one_mul]
  rw [if_neg ?cond]
  case cond =>
    push_neg
    exact ⟨hsin, not_lt.mp hroulette⟩
  rw [Vector3.refract_ratio_one _ _ hd hn hopp]

/-- Counterexample to C9 as frozen: with `ior = 1`, a front face and a
grazing unit direction, the reflectance roulette (draw 0) selects mirror
reflection even though total internal reflection does not trigger, so the
scattered direction differs from the incoming one. -/
theorem dielectric_ior_one_reflects :
    Material.scatter (Material.Dielectric 1) dielRand dielRay dielIntersection =
      some (⟨1, 1, 1⟩, ⟨⟨0, 0, 0⟩, ⟨0, 4 / 5, 3 / 5⟩⟩) ∧
    (⟨0, 4 / 5, 3 / 5⟩ : Vector3) ≠ dielRay.direction ∧
    ¬ ((1 : ℝ) * Real.sqrt (1 - (min ((dielRay.direction * (-1 : ℝ)).dot dielIntersection.normal) 1) *
        (min ((dielRay.direction * (-1 : ℝ)).dot dielIntersection.normal) 1)) > 1) := by
  have hd : dielRay.direction.length_squared = 1 := by
    norm_num [dielRay, Vector3.length_squared]
  have hnorm : dielRay.direction.normalize = dielRay.direction := Vector3.normalize_of_unit _ hd
  have hdot : (dielRay.direction * (-1 : ℝ)).dot dielIntersection.normal = 3 / 5 := by
    norm_num [dielRay, dielIntersection, Vector3.dot, Vector3.smul_def]
  have hmin : min ((dielRay.direction * (-1 : ℝ)).dot dielIntersection.normal) 1 = 3 / 5 := by
    rw [hdot]
    exact min_eq_left (by norm_num)
  have hrefl : reflectance (3 / 5) 1 = 32 / 3125 := by
    unfold reflectance
    norm_num
  have hsqrt : Real.sqrt (1 - (3 / 5 : ℝ) * (3 / 5)) = 4 / 5 := by
    rw [show (1 : ℝ) - (3 / 5) * (3 / 5) = (4 / 5) ^ 2 by norm_num]
    exact Real.sqrt_sq (by norm_num)
  refine ⟨?_, ?_, ?_⟩
  · simp only [Material.scatter, hnorm]
    rw [show dielIntersection.front_facing = true from rfl]
    simp only [eq_self_iff_true, if_true, one_div_one, one_mul]
    rw [hmin, hrefl, hsqrt]
    rw [if_pos (Or.inr (show (32 / 3125 : ℝ) > dielRand.uniform by
      rw [show dielRand.uniform = (0 : ℝ) from rfl]
      norm_num))]
    rw [show dielIntersection.normal = (⟨0, 0, 1⟩ : Vector3) from rfl,
      show dielIntersection.p = (⟨0, 0, 0⟩ : Vector3) from rfl]
    unfold Vector3.reflect
    rw [show dielRay.direction = (⟨0, 4 / 5, -(3 / 5)⟩ : Vector3) from rfl]
    simp only [Vector3.dot, Vector3.smul_def, Vector3.sub_def]
    rw [Option.some.injEq, Prod.mk.injEq]
    refine ⟨rfl, ?_⟩
    rw [Ray.mk.injEq]
    refine ⟨rfl, ?_⟩
    rw [Vector3.mk.injEq]
    norm_num
  · intro h
    have hz := congrArg Vector3.z h
    rw [show dielRay.direction = (⟨0, 4 / 5, -(3 / 5)⟩ : Vector3) from rfl] at hz
    norm_num at hz
  · rw [hmin, hsqrt]
    norm_num

/-- Witness for C9 (amended): on the fixture with a roulette draw of `1/2`
the dielectric refracts and the direction is unchanged. -/
theorem dielectric_ior_one_refract_identity_witness :
    Material.scatter (Material.Dielectric 1) ⟨⟨0, 0, 0⟩, ⟨0, 0, 0⟩, 1 / 2⟩ dielRay
        dielIntersection =
      some (⟨1, 1, 1⟩, ⟨⟨0, 0, 0⟩, ⟨0, 4 / 5, -(3 / 5)⟩⟩) := by
  have hdot : (dielRay.direction * (-1 : ℝ)).dot dielIntersection.normal = 3 / 5 := by
    norm_num [dielRay, dielIntersection, Vector3.dot, Vector3.smul_def]
  have h := dielectric_ior_one_refract_identity ⟨⟨0, 0, 0⟩, ⟨0, 0, 0⟩, 1 / 2⟩ dielRay
    dielIntersection rfl
    (by norm_num [dielIntersection, Vector3.length_squared])
    (by norm_num [dielRay, Vector3.length_squared])
    (by norm_num [dielRay, dielIntersection, Vector3.dot])
    (by
      rw [hdot, min_eq_left (by norm_num)]
      unfold reflectance
      norm_num)
  exact h

/-- Witness for C4 (amended): on the fixture the smaller root `1` lies in
`[1, 10]`, so the hit returns it. -/
theorem sphere_hit_root_selection_witness :
    Sphere.hit sphereW rayW 1 ((10 : ℝ) : EReal) =
      some (Sphere.mkIntersection sphereW rayW (Sphere.root1 sphereW rayW)) := by
  obtain ⟨hdisc, hr1, _⟩ := sphereW_data
  have h := sphere_hit_root_selection sphereW rayW 1 ((10 : ℝ) : EReal)
    (by rw [hdisc]; norm_num)
  apply h.1
  rw [hr1]
  exact ⟨le_refl 1, EReal.coe_le_coe_iff.mpr (by norm_num)⟩

end

end RT
